import Mathlib

/-
Verification development for the SIGMA encryptor core
(src/primihub/kernel/pir-acc/SIGMA/src/encryptor.cu).

The encryptor is shallowly embedded over lists of natural numbers.
A ring element in RNS layout is a list of residue polynomials, one
per modulus of the active level; flat device buffers of the source
(stride `coeff_count` per residue) are modelled either as flat lists
with explicit segment extraction or as residue lists.  External
collaborators that live in other translation units (the rlwe zero
encryption primitives, the rns-tool rescale helpers, NTT transforms,
validity checks and random sampling) are abstracted as parameters.
-/

set_option autoImplicit false

namespace SigmaHE

/-- Scheme identifiers of `sigma::scheme_type`; `none` stands for any
unsupported identifier. -/
inductive SchemeType where
  | none
  | bfv
  | ckks
  | bgv
deriving DecidableEq

/-- The slice of `EncryptionParameters` consumed by the encryptor:
the scheme tag, the modulus list of the level and the ring degree. -/
structure EncryptionParameters where
  scheme : SchemeType
  coeff_modulus : List Nat
  poly_modulus_degree : Nat
deriving DecidableEq

/-- One node of the modulus chain (`SIGMAContext::ContextData`): its
parameters, the link to the coarser predecessor, and the BGV plain-lift
constants exposed by the context. -/
structure ContextData where
  parms_id : Nat
  parms : EncryptionParameters
  prev_parms_id : Option Nat
  plain_upper_half_threshold : Nat
  plain_upper_half_increment : Nat
  plain_upper_half_increment_rns : List Nat
  using_fast_plain_lift : Bool
deriving DecidableEq

/-- The context chain: an arena of level records plus the distinguished
first (finest) and key (coarsest) level identifiers. -/
structure SIGMAContext where
  chain : List ContextData
  first_parms_id : Nat
  key_parms_id : Nat
deriving DecidableEq

/-- Resolve a level identifier against the chain
(`SIGMAContext::get_context_data`). -/
def SIGMAContext.get_context_data (c : SIGMAContext) (pid : Nat) : Option ContextData :=
  c.chain.find? (fun cd => cd.parms_id == pid)

/-- The scheme of the key level (`context_.key_context_data()->parms().scheme()`);
an unresolvable key level behaves as an unsupported scheme. -/
def SIGMAContext.key_scheme (c : SIGMAContext) : SchemeType :=
  match c.get_context_data c.key_parms_id with
  | some cd => cd.parms.scheme
  | Option.none => SchemeType.none

/-- A plaintext: flat coefficient (or residue) words, the NNT-form flag,
the level tag and the scale. -/
structure Plaintext where
  data : List Nat
  is_ntt_form : Bool
  parms_id : Nat
  scale : ℚ
deriving DecidableEq

/-- A ciphertext: components, each a list of residue polynomials, plus the
level tag, NTT-form flag, scale and correction factor. -/
structure Ciphertext where
  data : List (List (List Nat))
  parms_id : Nat
  is_ntt_form : Bool
  scale : ℚ
  correction_factor : Nat
deriving DecidableEq

/-- Errors raised by the encryptor (C++ exceptions). -/
inductive EncErr where
  | poolUninitialized
  | invalidParmsId
  | unsupportedScheme
  | publicKeyNotSet
  | secretKeyNotSet
  | plainInvalid
  | plainFormMismatch
  | randomStateUnprepared
deriving DecidableEq

/-- Segment `i` of length `n` of a flat buffer (`ptr + i * coeff_count`). -/
def seg (xs : List Nat) (n i : Nat) : List Nat :=
  (xs.drop (i * n)).take n

/-- Three-list pointwise combination. -/
def zipWith3 {α β γ δ : Type} (f : α → β → γ → δ) : List α → List β → List γ → List δ
  | a :: as, b :: bs, c :: cs => f a b c :: zipWith3 f as bs cs
  | _, _, _ => []

/-- Resize a ciphertext to `sz` components shaped for level `pid`
(`Ciphertext::resize(context_, parms_id, sz)`): the component buffers are
reallocated for the level and the level tag is set. -/
def Ciphertext.resize (ctx : SIGMAContext) (pid : Nat) (sz : Nat) (d : Ciphertext) :
    Ciphertext :=
  let k := match ctx.get_context_data pid with
    | some cd => cd.parms.coeff_modulus.length
    | Option.none => 0
  let n := match ctx.get_context_data pid with
    | some cd => cd.parms.poly_modulus_degree
    | Option.none => 0
  { d with data := List.replicate sz (List.replicate k (List.replicate n 0)),
           parms_id := pid }

/-- Copy of `coeff_count * coeff_modulus_size` words out of a component
(`set_poly(src, coeff_count, coeff_modulus_size, dst)`): the first `k`
residues, each truncated to `n` coefficients. -/
def set_poly_model (k n : Nat) (c : List (List Nat)) : List (List Nat) :=
  (c.take k).map (fun r => r.take n)

/-- Modelled from the spec: pointwise modular addition of two RNS polynomials
under the per-residue moduli (`add_poly_coeffmod`, a consumed primitive of
util/polyarithsmallmod). -/
def add_poly_coeffmod (a b : List (List Nat)) (qs : List Nat) : List (List Nat) :=
  zipWith3 (fun q ra rb => List.zipWith (fun x y => (x + y) % q) ra rb) qs a b

/-- Residue view of a flat plaintext buffer at ring degree `n` with `k`
moduli. -/
def plain_residues (p : Plaintext) (n k : Nat) : List (List Nat) :=
  (List.range k).map (fun i => seg p.data n i)

/-- The consumed external collaborators of the encryptor.  Each field is a
routine implemented outside this translation unit. -/
structure Externals where
  /-- Modelled from the spec: `util::encrypt_zero_asymmetric` of util/rlwe
  (public key is a precomputed encryption of zero) producing a fresh
  ciphertext at the requested level with the requested NTT-form flag. -/
  encrypt_zero_asymmetric : Nat → Bool → Ciphertext
  /-- Modelled from the spec: `util::encrypt_zero_symmetric` of util/rlwe,
  generating directly at the requested level from the secret key and the
  prepared random state; `none` stands for the synchronous failure on an
  unprepared random state. -/
  encrypt_zero_symmetric : Nat → Bool → Bool → Option Ciphertext
  /-- Modelled from the spec: the evaluation-domain rescale helper of the
  predecessor level's rns tool (`divide_and_round_q_last_ntt_inplace`). -/
  divide_and_round_q_last_ntt : Nat → List (List Nat) → List (List Nat)
  /-- Modelled from the spec: the exact divide-and-round rescale helper
  (`divide_and_round_q_last_inplace`). -/
  divide_and_round_q_last : Nat → List (List Nat) → List (List Nat)
  /-- Modelled from the spec: the mod-message-modulus-and-divide rescale
  helper (`mod_t_and_divide_q_last_ntt_inplace`). -/
  mod_t_and_divide_q_last : Nat → List (List Nat) → List (List Nat)
  /-- Modelled from the spec: the BFV scaled injection of util/scalingvariant
  (`multiply_add_plain_with_scaling_variant`), mapping the plaintext and the
  leading component to the updated leading component. -/
  multiply_add_plain_scaling_variant : Plaintext → List (List Nat) → List (List Nat)
  /-- Modelled from the spec: the negacyclic NTT under the tables of a given
  level and residue index (`ntt_negacyclic_harvey`). -/
  ntt_negacyclic_harvey : Nat → Nat → List Nat → List Nat
  /-- Modelled from the spec: the structural validity check of a plaintext
  against the active parameters (`is_valid_for`). -/
  is_valid_for_plain : Plaintext → Bool

/-- Modelled from the spec: contracts of the zero-encryption primitives of
util/rlwe, which are not part of this translation unit.  They produce a
2-component ciphertext encrypting zero at the requested level, carrying that
level's tag and the requested NTT-form flag. -/
def Externals.WellBehaved (ext : Externals) : Prop :=
  (∀ pid ntt, (ext.encrypt_zero_asymmetric pid ntt).data.length = 2 ∧
      (ext.encrypt_zero_asymmetric pid ntt).parms_id = pid ∧
      (ext.encrypt_zero_asymmetric pid ntt).is_ntt_form = ntt) ∧
  (∀ pid ntt sd ct, ext.encrypt_zero_symmetric pid ntt sd = some ct →
      ct.data.length = 2 ∧ ct.parms_id = pid ∧ ct.is_ntt_form = ntt)

/-- The encryptor instance state: the context and the key material, the
latter reduced to its flat NTT-form data and the metadata-validity bit
checked by `is_metadata_valid_for`. -/
structure Encryptor where
  context : SIGMAContext
  sk_data : List Nat
  sk_valid : Bool
  pk_valid : Bool

/-- The NTT-form flag selected for a scheme, `none` when the scheme is
unsupported (lines 125-134 of the source). -/
def scheme_ntt_flag : SchemeType → Option Bool
  | SchemeType.ckks => some true
  | SchemeType.bgv => some true
  | SchemeType.bfv => some false
  | SchemeType.none => Option.none

/-- The rescale helper dispatched on the scheme in the asymmetric descent
branch (lines 155-173 of the source). -/
def rescale_step (ext : Externals) (s : SchemeType) (prev_id : Nat) :
    List (List Nat) → List (List Nat) :=
  match s with
  | SchemeType.ckks => ext.divide_and_round_q_last_ntt prev_id
  | SchemeType.bfv => ext.divide_and_round_q_last prev_id
  | _ => ext.mod_t_and_divide_q_last prev_id

/-- `Encryptor::encrypt_zero_internal`.  Errors return the destination in
the state it has reached (C++ reference semantics on thrown exceptions). -/
def encrypt_zero_internal (E : Encryptor) (ext : Externals) (pool_ok : Bool)
    (parms_id : Nat) (is_asymmetric save_seed : Bool) (destination : Ciphertext) :
    Option EncErr × Ciphertext :=
  match pool_ok with
  | false => (some EncErr.poolUninitialized, destination)
  | true =>
    match E.context.get_context_data parms_id with
    | Option.none => (some EncErr.invalidParmsId, destination)
    | some cd =>
      match scheme_ntt_flag cd.parms.scheme with
      | Option.none => (some EncErr.unsupportedScheme, destination)
      | some is_ntt_form =>
        let k := cd.parms.coeff_modulus.length
        let n := cd.parms.poly_modulus_degree
        let dest1 := Ciphertext.resize E.context parms_id 2 destination
        match is_asymmetric with
        | true =>
          match cd.prev_parms_id with
          | some prev_id =>
            let temp := ext.encrypt_zero_asymmetric prev_id is_ntt_form
            let comps := temp.data.map
              (fun c => set_poly_model k n (rescale_step ext cd.parms.scheme prev_id c))
            (Option.none,
              { dest1 with
                  data := comps ++ dest1.data.drop temp.data.length,
                  parms_id := parms_id,
                  is_ntt_form := is_ntt_form,
                  scale := temp.scale,
                  correction_factor := temp.correction_factor })
          | Option.none =>
            (Option.none, ext.encrypt_zero_asymmetric parms_id is_ntt_form)
        | false =>
          match ext.encrypt_zero_symmetric parms_id is_ntt_form save_seed with
          | some ct => (Option.none, ct)
          | Option.none => (some EncErr.randomStateUnprepared, dest1)

/-- The full-precision lifted value of coefficient `j` in the generic BGV
lift (lines 289-299 of the source): coefficients in the upper half of the
message range get the full-precision increment added by `add_uint`, the
rest are copied; positions past the plaintext's length stay zero. -/
def liftedBig (T Inc : Nat) (n : Nat) (coeffs : List Nat) : List Nat :=
  (List.range n).map (fun j =>
    if j < coeffs.length then
      (if T ≤ coeffs.getD j 0 then coeffs.getD j 0 + Inc else coeffs.getD j 0)
    else 0)

/-- The generic BGV lift strategy: full-precision addition of the upper-half
increment followed by RNS decomposition.  Modelled from the spec for the
decomposition step: `decompose_array` of the level's base converts each
full-precision value into its residue modulo every modulus of the level. -/
def bgv_lift_generic (T Inc : Nat) (qs : List Nat) (n : Nat) (coeffs : List Nat) :
    List (List Nat) :=
  qs.map (fun q => (liftedBig T Inc n coeffs).map (fun x => x % q))

/-- The fast BGV lift strategy (lines 313-321 of the source): for every
residue the per-residue precomputed increment is added, by a conditional
select with no modular reduction, to upper-half coefficients. -/
def bgv_lift_fast (T : Nat) (incs : List Nat) (n : Nat) (coeffs : List Nat) :
    List (List Nat) :=
  incs.map (fun inc => (List.range n).map (fun j =>
    if j < coeffs.length then
      (if T ≤ coeffs.getD j 0 then coeffs.getD j 0 + inc else coeffs.getD j 0)
    else 0))

/-- The BGV plain lift dispatched on the fast-plain-lift qualifier
(line 283 of the source). -/
def bgv_lift (cd : ContextData) (plain : Plaintext) : List (List Nat) :=
  match cd.using_fast_plain_lift with
  | false =>
    bgv_lift_generic cd.plain_upper_half_threshold cd.plain_upper_half_increment
      cd.parms.coeff_modulus cd.parms.poly_modulus_degree plain.data
  | true =>
    bgv_lift_fast cd.plain_upper_half_threshold cd.plain_upper_half_increment_rns
      cd.parms.poly_modulus_degree plain.data

/-- The BFV branch of `Encryptor::encrypt_internal` (lines 220-232). -/
def encrypt_bfv_branch (E : Encryptor) (ext : Externals) (pool_ok : Bool)
    (plain : Plaintext) (is_asymmetric save_seed : Bool) (destination : Ciphertext) :
    Option EncErr × Ciphertext :=
  match plain.is_ntt_form with
  | true => (some EncErr.plainFormMismatch, destination)
  | false =>
    match encrypt_zero_internal E ext pool_ok E.context.first_parms_id
        is_asymmetric save_seed destination with
    | (some e, d) => (some e, d)
    | (Option.none, d) =>
      let comp0 := ext.multiply_add_plain_scaling_variant plain (d.data.getD 0 [])
      (Option.none, { d with data := d.data.set 0 comp0 })

/-- The CKKS branch of `Encryptor::encrypt_internal` (lines 233-258). -/
def encrypt_ckks_branch (E : Encryptor) (ext : Externals) (pool_ok : Bool)
    (plain : Plaintext) (is_asymmetric save_seed : Bool) (destination : Ciphertext) :
    Option EncErr × Ciphertext :=
  match plain.is_ntt_form with
  | false => (some EncErr.plainFormMismatch, destination)
  | true =>
    match E.context.get_context_data plain.parms_id with
    | Option.none => (some EncErr.plainInvalid, destination)
    | some cd =>
      match encrypt_zero_internal E ext pool_ok plain.parms_id
          is_asymmetric save_seed destination with
      | (some e, d) => (some e, d)
      | (Option.none, d) =>
        let qs := cd.parms.coeff_modulus
        let n := cd.parms.poly_modulus_degree
        let comp0 := add_poly_coeffmod (d.data.getD 0 [])
          (plain_residues plain n qs.length) qs
        (Option.none, { d with data := d.data.set 0 comp0, scale := plain.scale })

/-- The BGV branch of `Encryptor::encrypt_internal` (lines 259-329). -/
def encrypt_bgv_branch (E : Encryptor) (ext : Externals) (pool_ok : Bool)
    (plain : Plaintext) (is_asymmetric save_seed : Bool) (destination : Ciphertext) :
    Option EncErr × Ciphertext :=
  match plain.is_ntt_form with
  | true => (some EncErr.plainFormMismatch, destination)
  | false =>
    match encrypt_zero_internal E ext pool_ok E.context.first_parms_id
        is_asymmetric save_seed destination with
    | (some e, d) => (some e, d)
    | (Option.none, d) =>
      match E.context.get_context_data E.context.first_parms_id with
      | Option.none => (some EncErr.invalidParmsId, d)
      | some cd =>
        let qs := cd.parms.coeff_modulus
        let lifted := bgv_lift cd plain
        let lifted_ntt := (List.range qs.length).map
          (fun i => ext.ntt_negacyclic_harvey E.context.first_parms_id i
            (lifted.getD i []))
        let comp0 := add_poly_coeffmod (d.data.getD 0 []) lifted_ntt qs
        (Option.none, { d with data := d.data.set 0 comp0 })

/-- `Encryptor::encrypt_internal`: key and plaintext validation followed by
the scheme dispatch. -/
def encrypt_internal (E : Encryptor) (ext : Externals) (pool_ok : Bool)
    (plain : Plaintext) (is_asymmetric save_seed : Bool) (destination : Ciphertext) :
    Option EncErr × Ciphertext :=
  let key_err : Option EncErr :=
    match is_asymmetric, E.pk_valid, E.sk_valid with
    | true, false, _ => some EncErr.publicKeyNotSet
    | true, true, _ => Option.none
    | false, _, false => some EncErr.secretKeyNotSet
    | false, _, true => Option.none
  match key_err with
  | some e => (some e, destination)
  | Option.none =>
    match ext.is_valid_for_plain plain with
    | false => (some EncErr.plainInvalid, destination)
    | true =>
      match E.context.key_scheme with
      | SchemeType.bfv =>
        encrypt_bfv_branch E ext pool_ok plain is_asymmetric save_seed destination
      | SchemeType.ckks =>
        encrypt_ckks_branch E ext pool_ok plain is_asymmetric save_seed destination
      | SchemeType.bgv =>
        encrypt_bgv_branch E ext pool_ok plain is_asymmetric save_seed destination
      | SchemeType.none => (some EncErr.unsupportedScheme, destination)

/-- Modelled from the spec: the pointwise evaluation-form product of
kernelutils (`dyadic_product_coeffmod`), reduced under the residue's
modulus. -/
def dyadic_product_coeffmod (a b : List Nat) (q : Nat) : List Nat :=
  List.zipWith (fun x y => x * y % q) a b

/-- Modelled from the spec: the fused combination of kernelutils
(`add_negate_add_poly_coeffmod`): first operand minus second plus third,
under the residue's modulus. -/
def add_negate_add_poly_coeffmod (a b c : List Nat) (q : Nat) : List Nat :=
  zipWith3 (fun x y z => (x + (q - y % q) + z) % q) a b c

/-- `Encryptor::encrypt_symmetric_ckks_internal`.  The freshly sampled
centered-binomial noise (`sample_poly_cbd`) enters as the `noise` buffer and
the per-residue device NTT of the plaintext's level as `ntt`. -/
def encrypt_symmetric_ckks_internal (E : Encryptor) (noise : List Nat)
    (ntt : Nat → List Nat → List Nat) (plain : Plaintext)
    (destination c1 : Ciphertext) : Option EncErr × Ciphertext :=
  match E.sk_valid with
  | false => (some EncErr.secretKeyNotSet, destination)
  | true =>
    match plain.is_ntt_form with
    | false => (some EncErr.plainFormMismatch, destination)
    | true =>
      match E.context.get_context_data plain.parms_id with
      | Option.none => (some EncErr.plainInvalid, destination)
      | some cd =>
        let qs := cd.parms.coeff_modulus
        let n := cd.parms.poly_modulus_degree
        let comp0 := (List.range qs.length).map (fun i =>
          let q := qs.getD i 0
          let prod := dyadic_product_coeffmod (seg E.sk_data n i)
            ((c1.data.getD 0 []).getD i []) q
          add_negate_add_poly_coeffmod (ntt i (seg noise n i)) prod
            (seg plain.data n i) q)
        (Option.none,
          { data := [comp0], parms_id := plain.parms_id, is_ntt_form := true,
            scale := plain.scale, correction_factor := 1 })

/-- `Encryptor::sample_symmetric_ckks_c1_internal`: a 1-component
evaluation-form shell at the finest level holding the uniformly sampled
ring element `u` (the output of `sample_poly_uniform`). -/
def sample_symmetric_ckks_c1_internal (E : Encryptor) (u : List Nat) : Ciphertext :=
  let k := match E.context.get_context_data E.context.first_parms_id with
    | some cd => cd.parms.coeff_modulus.length
    | Option.none => 0
  let n := match E.context.get_context_data E.context.first_parms_id with
    | some cd => cd.parms.poly_modulus_degree
    | Option.none => 0
  { data := [(List.range k).map (fun i => seg u n i)],
    parms_id := E.context.first_parms_id, is_ntt_form := true,
    scale := 1, correction_factor := 1 }

/-- A concrete key level: three moduli, ring degree 4, CKKS scheme. -/
def cdKeyW : ContextData :=
  { parms_id := 1,
    parms := { scheme := SchemeType.ckks, coeff_modulus := [97, 193, 389],
               poly_modulus_degree := 4 },
    prev_parms_id := Option.none,
    plain_upper_half_threshold := 9,
    plain_upper_half_increment := 0,
    plain_upper_half_increment_rns := [],
    using_fast_plain_lift := false }

/-- A concrete first (finest) level below `cdKeyW`: moduli 97 and 193,
ring degree 4, message modulus 17. -/
def cdFirstW : ContextData :=
  { parms_id := 2,
    parms := { scheme := SchemeType.ckks, coeff_modulus := [97, 193],
               poly_modulus_degree := 4 },
    prev_parms_id := some 1,
    plain_upper_half_threshold := 9,
    plain_upper_half_increment := 18704,
    plain_upper_half_increment_rns := [80, 176],
    using_fast_plain_lift := true }

/-- A concrete two-level chain. -/
def ctxW : SIGMAContext :=
  { chain := [cdKeyW, cdFirstW], first_parms_id := 2, key_parms_id := 1 }

/-- A concrete zero component: two residues of four coefficients. -/
def zeroCompW : List (List Nat) :=
  List.replicate 2 (List.replicate 4 0)

/-- A concrete 2-component zero ciphertext shell. -/
def zeroCtW (pid : Nat) (ntt : Bool) : Ciphertext :=
  { data := [zeroCompW, zeroCompW], parms_id := pid, is_ntt_form := ntt,
    scale := 1, correction_factor := 1 }

/-- A concrete set of external collaborators. -/
def extW : Externals :=
  { encrypt_zero_asymmetric := fun pid ntt => zeroCtW pid ntt,
    encrypt_zero_symmetric := fun pid ntt _ => some (zeroCtW pid ntt),
    divide_and_round_q_last_ntt := fun _ c => c,
    divide_and_round_q_last := fun _ c => c,
    mod_t_and_divide_q_last := fun _ c => c,
    multiply_add_plain_scaling_variant := fun _ c => c,
    ntt_negacyclic_harvey := fun _ _ l => l,
    is_valid_for_plain := fun _ => true }

/-- External collaborators whose symmetric zero generator fails with an
unprepared random state. -/
def extBadW : Externals :=
  { extW with encrypt_zero_symmetric := fun _ _ _ => Option.none }

/-- A concrete encryptor instance over `ctxW` with both keys set. -/
def EW : Encryptor :=
  { context := ctxW, sk_data := [1, 2, 3, 4, 5, 6, 7, 8],
    sk_valid := true, pk_valid := true }

/-- A concrete evaluation-form plaintext resolved at level 2. -/
def plainW : Plaintext :=
  { data := [1, 0, 2, 0, 3, 0, 4, 0], is_ntt_form := true, parms_id := 2,
    scale := 5 }

/-- A concrete coefficient-form plaintext. -/
def plainCoeffW : Plaintext :=
  { data := [1, 2, 3, 4], is_ntt_form := false, parms_id := 2, scale := 1 }

/-- A concrete caller-owned destination in an arbitrary prior state. -/
def dest0 : Ciphertext :=
  { data := [], parms_id := 77, is_ntt_form := false, scale := 0,
    correction_factor := 0 }

/-- A concrete sampled mask shell. -/
def c1W : Ciphertext :=
  sample_symmetric_ckks_c1_internal EW [3, 1, 4, 1, 5, 9, 2, 6]

theorem getD_map {α β : Type} (f : α → β) (l : List α) (i : Nat) (d : β)
    (da : α) (h : i < l.length) :
    (l.map f).getD i d = f (l.getD i da) := by
  induction l generalizing i with
  | nil => simp at h
  | cons a t ih =>
    cases i with
    | zero => rfl
    | succ i =>
      simp only [List.map_cons, List.getD_cons_succ]
      exact ih i (by simpa using h)

theorem getD_range_map {α : Type} (F : Nat → α) (k i : Nat) (d : α)
    (h : i < k) :
    ((List.range k).map F).getD i d = F i := by
  rw [getD_map F _ i d 0 (by simpa using h)]
  congr 1
  rw [List.getD_eq_getElem _ 0 (by simpa using h)]
  simp

theorem getD_zipWith {α β γ : Type} (f : α → β → γ) (la : List α)
    (lb : List β) (i : Nat) (d : γ) (da : α) (db : β)
    (ha : i < la.length) (hb : i < lb.length) :
    (List.zipWith f la lb).getD i d = f (la.getD i da) (lb.getD i db) := by
  induction la generalizing lb i with
  | nil => simp at ha
  | cons a ta ih =>
    cases lb with
    | nil => simp at hb
    | cons b tb =>
      cases i with
      | zero => rfl
      | succ i =>
        simp only [List.zipWith_cons_cons, List.getD_cons_succ]
        exact ih tb i (by simpa using ha) (by simpa using hb)

theorem getD_zipWith3 {α β γ δ : Type} (f : α → β → γ → δ) (la : List α)
    (lb : List β) (lc : List γ) (i : Nat) (d : δ) (da : α) (db : β) (dc : γ)
    (ha : i < la.length) (hb : i < lb.length) (hc : i < lc.length) :
    (zipWith3 f la lb lc).getD i d =
      f (la.getD i da) (lb.getD i db) (lc.getD i dc) := by
  induction la generalizing lb lc i with
  | nil => simp at ha
  | cons a ta ih =>
    cases lb with
    | nil => simp at hb
    | cons b tb =>
      cases lc with
      | nil => simp at hc
      | cons c tc =>
        cases i with
        | zero => rfl
        | succ i =>
          simp only [zipWith3, List.getD_cons_succ]
          exact ih tb tc i (by simpa using ha) (by simpa using hb)
            (by simpa using hc)

theorem getD_take {α : Type} (l : List α) (n j : Nat) (d : α) (h : j < n) :
    (l.take n).getD j d = l.getD j d := by
  induction l generalizing n j with
  | nil => simp
  | cons a t ih =>
    cases n with
    | zero => omega
    | succ n =>
      cases j with
      | zero => rfl
      | succ j =>
        simp only [List.take_succ_cons, List.getD_cons_succ]
        exact ih n j (by omega)

theorem getD_drop {α : Type} (l : List α) (m j : Nat) (d : α) :
    (l.drop m).getD j d = l.getD (m + j) d := by
  induction m generalizing l with
  | zero => simp
  | succ m ih =>
    cases l with
    | nil => simp
    | cons a t =>
      simp only [List.drop_succ_cons]
      rw [ih t]
      have : m + 1 + j = (m + j) + 1 := by omega
      rw [this]
      rfl

theorem seg_getD (xs : List Nat) (n i j : Nat) (d : Nat) (h : j < n) :
    (seg xs n i).getD j d = xs.getD (i * n + j) d := by
  unfold seg
  rw [getD_take _ _ _ _ h, getD_drop]

theorem seg_length (xs : List Nat) (k n i : Nat) (hlen : xs.length = k * n)
    (hi : i < k) : (seg xs n i).length = n := by
  have h1 : (i + 1) * n ≤ k * n := Nat.mul_le_mul_right n hi
  have h2 : (i + 1) * n = i * n + n := by ring
  simp only [seg, List.length_take, List.length_drop, hlen]
  omega

theorem extW_wb : extW.WellBehaved := by
  constructor
  · intro pid ntt
    exact ⟨rfl, rfl, rfl⟩
  · intro pid ntt sd ct h
    simp only [extW, Option.some.injEq] at h
    subst h
    exact ⟨rfl, rfl, rfl⟩

theorem zero_success_spec (E : Encryptor) (ext : Externals) (pool_ok : Bool)
    (pid : Nat) (asym sd : Bool) (dest d : Ciphertext)
    (hext : ext.WellBehaved)
    (h : encrypt_zero_internal E ext pool_ok pid asym sd dest = (Option.none, d)) :
    ∃ cd, E.context.get_context_data pid = some cd ∧
      d.data.length = 2 ∧ d.parms_id = pid ∧
      scheme_ntt_flag cd.parms.scheme = some d.is_ntt_form := by
  unfold encrypt_zero_internal at h
  cases pool_ok with
  | false => simp at h
  | true =>
    simp only [] at h
    cases hcd : E.context.get_context_data pid with
    | none => rw [hcd] at h; simp at h
    | some cd =>
      rw [hcd] at h
      simp only [] at h
      cases hfl : scheme_ntt_flag cd.parms.scheme with
      | none => rw [hfl] at h; simp at h
      | some flag =>
        rw [hfl] at h
        simp only [] at h
        refine ⟨cd, rfl, ?_⟩
        cases asym with
        | false =>
          simp only at h
          cases hsym : ext.encrypt_zero_symmetric pid flag sd with
          | none => rw [hsym] at h; simp at h
          | some ct =>
            rw [hsym] at h
            simp only [Prod.mk.injEq] at h
            obtain ⟨h1, h2, h3⟩ := hext.2 pid flag sd ct hsym
            rw [← h.2]
            exact ⟨h1, h2, by rw [h3, hfl]⟩
        | true =>
          simp only at h
          cases hprev : cd.prev_parms_id with
          | none =>
            rw [hprev] at h
            simp only [Prod.mk.injEq] at h
            obtain ⟨h1, h2, h3⟩ := hext.1 pid flag
            rw [← h.2]
            exact ⟨h1, h2, by rw [h3, hfl]⟩
          | some prev_id =>
            rw [hprev] at h
            simp only [Prod.mk.injEq] at h
            obtain ⟨h1, h2, h3⟩ := hext.1 prev_id flag
            rw [← h.2]
            refine ⟨?_, rfl, by rw [hfl]⟩
            simp only [List.length_append, List.length_map, h1,
              Ciphertext.resize, List.length_drop, List.length_replicate]

theorem zero_success_resolves (E : Encryptor) (ext : Externals) (pool_ok : Bool)
    (pid : Nat) (asym sd : Bool) (dest d : Ciphertext)
    (h : encrypt_zero_internal E ext pool_ok pid asym sd dest = (Option.none, d)) :
    ∃ cd, E.context.get_context_data pid = some cd := by
  unfold encrypt_zero_internal at h
  cases pool_ok with
  | false => simp at h
  | true =>
    cases hcd : E.context.get_context_data pid with
    | none => rw [hcd] at h; simp at h
    | some cd => exact ⟨cd, rfl⟩

theorem zero_error_id (E : Encryptor) (ext : Externals) (pool_ok : Bool)
    (pid : Nat) (asym sd : Bool) (dest d : Ciphertext) (e : EncErr)
    (h : encrypt_zero_internal E ext pool_ok pid asym sd dest = (some e, d))
    (hne : e ≠ EncErr.randomStateUnprepared) : d = dest := by
  unfold encrypt_zero_internal at h
  cases pool_ok with
  | false => simp only [Prod.mk.injEq] at h; exact h.2.symm
  | true =>
    simp only [] at h
    cases hcd : E.context.get_context_data pid with
    | none =>
      rw [hcd] at h
      simp only [Prod.mk.injEq] at h
      exact h.2.symm
    | some cd =>
      rw [hcd] at h
      simp only [] at h
      cases hfl : scheme_ntt_flag cd.parms.scheme with
      | none =>
        rw [hfl] at h
        simp only [Prod.mk.injEq] at h
        exact h.2.symm
      | some flag =>
        rw [hfl] at h
        simp only [] at h
        cases asym with
        | true =>
          simp only [] at h
          cases hprev : cd.prev_parms_id with
          | none => rw [hprev] at h; simp at h
          | some prev_id => rw [hprev] at h; simp at h
        | false =>
          simp only [] at h
          cases hsym : ext.encrypt_zero_symmetric pid flag sd with
          | none =>
            rw [hsym] at h
            simp only [Prod.mk.injEq] at h
            exact absurd (Option.some.inj h.1.symm) hne
          | some ct => rw [hsym] at h; simp at h

theorem bfv_branch_error_id (E : Encryptor) (ext : Externals) (pool_ok : Bool)
    (plain : Plaintext) (asym sd : Bool) (dest d : Ciphertext) (e : EncErr)
    (h : encrypt_bfv_branch E ext pool_ok plain asym sd dest = (some e, d))
    (hne : e ≠ EncErr.randomStateUnprepared) : d = dest := by
  unfold encrypt_bfv_branch at h
  cases hpn : plain.is_ntt_form with
  | true => rw [hpn] at h; simp only [Prod.mk.injEq] at h; exact h.2.symm
  | false =>
    rw [hpn] at h
    simp only [] at h
    rcases hz : encrypt_zero_internal E ext pool_ok E.context.first_parms_id
        asym sd dest with ⟨o, d0⟩
    cases o with
    | none => rw [hz] at h; simp at h
    | some e0 =>
      rw [hz] at h
      simp only [Prod.mk.injEq] at h
      rw [h.2, Option.some.inj h.1] at hz
      exact zero_error_id E ext pool_ok E.context.first_parms_id asym sd dest d e
        hz hne

theorem ckks_branch_error_id (E : Encryptor) (ext : Externals) (pool_ok : Bool)
    (plain : Plaintext) (asym sd : Bool) (dest d : Ciphertext) (e : EncErr)
    (h : encrypt_ckks_branch E ext pool_ok plain asym sd dest = (some e, d))
    (hne : e ≠ EncErr.randomStateUnprepared) : d = dest := by
  unfold encrypt_ckks_branch at h
  cases hpn : plain.is_ntt_form with
  | false => rw [hpn] at h; simp only [Prod.mk.injEq] at h; exact h.2.symm
  | true =>
    rw [hpn] at h
    simp only [] at h
    cases hcd : E.context.get_context_data plain.parms_id with
    | none =>
      rw [hcd] at h
      simp only [Prod.mk.injEq] at h
      exact h.2.symm
    | some cd =>
      rw [hcd] at h
      simp only [] at h
      rcases hz : encrypt_zero_internal E ext pool_ok plain.parms_id
          asym sd dest with ⟨o, d0⟩
      cases o with
      | none => rw [hz] at h; simp at h
      | some e0 =>
        rw [hz] at h
        simp only [Prod.mk.injEq] at h
        rw [h.2, Option.some.inj h.1] at hz
        exact zero_error_id E ext pool_ok plain.parms_id asym sd dest d e hz hne

theorem bgv_branch_error_id (E : Encryptor) (ext : Externals) (pool_ok : Bool)
    (plain : Plaintext) (asym sd : Bool) (dest d : Ciphertext) (e : EncErr)
    (h : encrypt_bgv_branch E ext pool_ok plain asym sd dest = (some e, d))
    (hne : e ≠ EncErr.randomStateUnprepared) : d = dest := by
  unfold encrypt_bgv_branch at h
  cases hpn : plain.is_ntt_form with
  | true => rw [hpn] at h; simp only [Prod.mk.injEq] at h; exact h.2.symm
  | false =>
    rw [hpn] at h
    simp only [] at h
    rcases hz : encrypt_zero_internal E ext pool_ok E.context.first_parms_id
        asym sd dest with ⟨o, d0⟩
    cases o with
    | none =>
      rw [hz] at h
      simp only [] at h
      obtain ⟨cd, hcd⟩ := zero_success_resolves E ext pool_ok
        E.context.first_parms_id asym sd dest d0 hz
      rw [hcd] at h
      simp at h
    | some e0 =>
      rw [hz] at h
      simp only [Prod.mk.injEq] at h
      rw [h.2, Option.some.inj h.1] at hz
      exact zero_error_id E ext pool_ok E.context.first_parms_id asym sd dest d e
        hz hne

theorem internal_error_id (E : Encryptor) (ext : Externals) (pool_ok : Bool)
    (plain : Plaintext) (asym sd : Bool) (dest d : Ciphertext) (e : EncErr)
    (h : encrypt_internal E ext pool_ok plain asym sd dest = (some e, d))
    (hne : e ≠ EncErr.randomStateUnprepared) : d = dest := by
  unfold encrypt_internal at h
  simp only [] at h
  cases asym with
  | true =>
    cases hpk : E.pk_valid with
    | false =>
      rw [hpk] at h
      simp only [Prod.mk.injEq] at h
      exact h.2.symm
    | true =>
      rw [hpk] at h
      simp only [] at h
      cases hv : ext.is_valid_for_plain plain with
      | false =>
        rw [hv] at h
        simp only [Prod.mk.injEq] at h
        exact h.2.symm
      | true =>
        rw [hv] at h
        simp only [] at h
        cases hks : E.context.key_scheme with
        | none =>
          rw [hks] at h
          simp only [Prod.mk.injEq] at h
          exact h.2.symm
        | bfv =>
          rw [hks] at h
          exact bfv_branch_error_id E ext pool_ok plain true sd dest d e h hne
        | ckks =>
          rw [hks] at h
          exact ckks_branch_error_id E ext pool_ok plain true sd dest d e h hne
        | bgv =>
          rw [hks] at h
          exact bgv_branch_error_id E ext pool_ok plain true sd dest d e h hne
  | false =>
    cases hsk : E.sk_valid with
    | false =>
      rw [hsk] at h
      simp only [Prod.mk.injEq] at h
      exact h.2.symm
    | true =>
      rw [hsk] at h
      simp only [] at h
      cases hv : ext.is_valid_for_plain plain with
      | false =>
        rw [hv] at h
        simp only [Prod.mk.injEq] at h
        exact h.2.symm
      | true =>
        rw [hv] at h
        simp only [] at h
        cases hks : E.context.key_scheme with
        | none =>
          rw [hks] at h
          simp only [Prod.mk.injEq] at h
          exact h.2.symm
        | bfv =>
          rw [hks] at h
          exact bfv_branch_error_id E ext pool_ok plain false sd dest d e h hne
        | ckks =>
          rw [hks] at h
          exact ckks_branch_error_id E ext pool_ok plain false sd dest d e h hne
        | bgv =>
          rw [hks] at h
          exact bgv_branch_error_id E ext pool_ok plain false sd dest d e h hne

theorem encrypt_internal_success (E : Encryptor) (ext : Externals)
    (pool_ok : Bool) (plain : Plaintext) (asym sd : Bool) (dest d : Ciphertext)
    (h : encrypt_internal E ext pool_ok plain asym sd dest = (Option.none, d)) :
    (E.context.key_scheme = SchemeType.bfv ∧
      encrypt_bfv_branch E ext pool_ok plain asym sd dest = (Option.none, d)) ∨
    (E.context.key_scheme = SchemeType.ckks ∧
      encrypt_ckks_branch E ext pool_ok plain asym sd dest = (Option.none, d)) ∨
    (E.context.key_scheme = SchemeType.bgv ∧
      encrypt_bgv_branch E ext pool_ok plain asym sd dest = (Option.none, d)) := by
  unfold encrypt_internal at h
  simp only [] at h
  cases asym with
  | true =>
    cases hpk : E.pk_valid with
    | false => rw [hpk] at h; simp at h
    | true =>
      rw [hpk] at h
      simp only [] at h
      cases hv : ext.is_valid_for_plain plain with
      | false => rw [hv] at h; simp at h
      | true =>
        rw [hv] at h
        simp only [] at h
        cases hks : E.context.key_scheme with
        | none => rw [hks] at h; simp at h
        | bfv => rw [hks] at h; exact Or.inl ⟨rfl, h⟩
        | ckks => rw [hks] at h; exact Or.inr (Or.inl ⟨rfl, h⟩)
        | bgv => rw [hks] at h; exact Or.inr (Or.inr ⟨rfl, h⟩)
  | false =>
    cases hsk : E.sk_valid with
    | false => rw [hsk] at h; simp at h
    | true =>
      rw [hsk] at h
      simp only [] at h
      cases hv : ext.is_valid_for_plain plain with
      | false => rw [hv] at h; simp at h
      | true =>
        rw [hv] at h
        simp only [] at h
        cases hks : E.context.key_scheme with
        | none => rw [hks] at h; simp at h
        | bfv => rw [hks] at h; exact Or.inl ⟨rfl, h⟩
        | ckks => rw [hks] at h; exact Or.inr (Or.inl ⟨rfl, h⟩)
        | bgv => rw [hks] at h; exact Or.inr (Or.inr ⟨rfl, h⟩)

theorem bfv_branch_success (E : Encryptor) (ext : Externals) (pool_ok : Bool)
    (plain : Plaintext) (asym sd : Bool) (dest d : Ciphertext)
    (h : encrypt_bfv_branch E ext pool_ok plain asym sd dest = (Option.none, d)) :
    ∃ d0, encrypt_zero_internal E ext pool_ok E.context.first_parms_id asym sd
        dest = (Option.none, d0) ∧
      d.parms_id = d0.parms_id ∧ d.is_ntt_form = d0.is_ntt_form ∧
      d.scale = d0.scale := by
  unfold encrypt_bfv_branch at h
  cases hpn : plain.is_ntt_form with
  | true => rw [hpn] at h; simp at h
  | false =>
    rw [hpn] at h
    simp only [] at h
    rcases hz : encrypt_zero_internal E ext pool_ok E.context.first_parms_id
        asym sd dest with ⟨o, d0⟩
    cases o with
    | some e0 => rw [hz] at h; simp at h
    | none =>
      rw [hz] at h
      simp only [Prod.mk.injEq, true_and] at h
      exact ⟨d0, rfl, by rw [← h], by rw [← h], by rw [← h]⟩

theorem ckks_branch_success (E : Encryptor) (ext : Externals) (pool_ok : Bool)
    (plain : Plaintext) (asym sd : Bool) (dest d : Ciphertext)
    (h : encrypt_ckks_branch E ext pool_ok plain asym sd dest = (Option.none, d)) :
    ∃ d0, encrypt_zero_internal E ext pool_ok plain.parms_id asym sd dest =
        (Option.none, d0) ∧
      d.parms_id = d0.parms_id ∧ d.is_ntt_form = d0.is_ntt_form ∧
      d.scale = plain.scale := by
  unfold encrypt_ckks_branch at h
  cases hpn : plain.is_ntt_form with
  | false => rw [hpn] at h; simp at h
  | true =>
    rw [hpn] at h
    simp only [] at h
    cases hcd : E.context.get_context_data plain.parms_id with
    | none => rw [hcd] at h; simp at h
    | some cd =>
      rw [hcd] at h
      simp only [] at h
      rcases hz : encrypt_zero_internal E ext pool_ok plain.parms_id asym sd
          dest with ⟨o, d0⟩
      cases o with
      | some e0 => rw [hz] at h; simp at h
      | none =>
        rw [hz] at h
        simp only [Prod.mk.injEq, true_and] at h
        exact ⟨d0, rfl, by rw [← h], by rw [← h], by rw [← h]⟩

theorem bgv_branch_success (E : Encryptor) (ext : Externals) (pool_ok : Bool)
    (plain : Plaintext) (asym sd : Bool) (dest d : Ciphertext)
    (h : encrypt_bgv_branch E ext pool_ok plain asym sd dest = (Option.none, d)) :
    ∃ d0, encrypt_zero_internal E ext pool_ok E.context.first_parms_id asym sd
        dest = (Option.none, d0) ∧
      d.parms_id = d0.parms_id ∧ d.is_ntt_form = d0.is_ntt_form ∧
      d.scale = d0.scale := by
  unfold encrypt_bgv_branch at h
  cases hpn : plain.is_ntt_form with
  | true => rw [hpn] at h; simp at h
  | false =>
    rw [hpn] at h
    simp only [] at h
    rcases hz : encrypt_zero_internal E ext pool_ok E.context.first_parms_id
        asym sd dest with ⟨o, d0⟩
    cases o with
    | some e0 => rw [hz] at h; simp at h
    | none =>
      rw [hz] at h
      simp only [] at h
      obtain ⟨cd, hcd⟩ := zero_success_resolves E ext pool_ok
        E.context.first_parms_id asym sd dest d0 hz
      rw [hcd] at h
      simp only [Prod.mk.injEq, true_and] at h
      exact ⟨d0, rfl, by rw [← h], by rw [← h], by rw [← h]⟩

theorem fast_path_eq (E : Encryptor) (noise : List Nat)
    (ntt : Nat → List Nat → List Nat) (plain : Plaintext)
    (dest c1 : Ciphertext) (cd : ContextData)
    (hsk : E.sk_valid = true) (hpn : plain.is_ntt_form = true)
    (hcd : E.context.get_context_data plain.parms_id = some cd) :
    encrypt_symmetric_ckks_internal E noise ntt plain dest c1 =
      (Option.none,
        { data := [(List.range cd.parms.coeff_modulus.length).map (fun i =>
            add_negate_add_poly_coeffmod
              (ntt i (seg noise cd.parms.poly_modulus_degree i))
              (dyadic_product_coeffmod
                (seg E.sk_data cd.parms.poly_modulus_degree i)
                ((c1.data.getD 0 []).getD i [])
                (cd.parms.coeff_modulus.getD i 0))
              (seg plain.data cd.parms.poly_modulus_degree i)
              (cd.parms.coeff_modulus.getD i 0))],
          parms_id := plain.parms_id, is_ntt_form := true,
          scale := plain.scale, correction_factor := 1 }) := by
  unfold encrypt_symmetric_ckks_internal
  rw [hsk, hpn, hcd]

theorem fast_path_success (E : Encryptor) (noise : List Nat)
    (ntt : Nat → List Nat → List Nat) (plain : Plaintext)
    (dest c1 d : Ciphertext)
    (h : encrypt_symmetric_ckks_internal E noise ntt plain dest c1 =
      (Option.none, d)) :
    d.data.length = 1 ∧ d.parms_id = plain.parms_id ∧ d.is_ntt_form = true ∧
      d.scale = plain.scale ∧ d.correction_factor = 1 := by
  unfold encrypt_symmetric_ckks_internal at h
  cases hsk : E.sk_valid with
  | false => rw [hsk] at h; simp at h
  | true =>
    rw [hsk] at h
    simp only [] at h
    cases hpn : plain.is_ntt_form with
    | false => rw [hpn] at h; simp at h
    | true =>
      rw [hpn] at h
      simp only [] at h
      cases hcd : E.context.get_context_data plain.parms_id with
      | none => rw [hcd] at h; simp at h
      | some cd =>
        rw [hcd] at h
        simp only [Prod.mk.injEq, true_and] at h
        rw [← h]
        exact ⟨rfl, rfl, rfl, rfl, rfl⟩

/-- C5: for every resolvable target level, `encrypt_zero_internal` produces a
ciphertext with exactly 2 components carrying that level's tag, with the
evaluation-form flag set exactly when the scheme is CKKS or BGV and cleared
for BFV; it throws on an unresolved level identifier and on any scheme
identifier other than the three supported ones. -/
theorem encrypt_zero_contract (E : Encryptor) (ext : Externals) (pid : Nat)
    (asym sd : Bool) (dest : Ciphertext) (hext : ext.WellBehaved) :
    (E.context.get_context_data pid = Option.none →
      encrypt_zero_internal E ext true pid asym sd dest =
        (some EncErr.invalidParmsId, dest)) ∧
    (∀ cd, E.context.get_context_data pid = some cd →
      cd.parms.scheme = SchemeType.none →
      encrypt_zero_internal E ext true pid asym sd dest =
        (some EncErr.unsupportedScheme, dest)) ∧
    (∀ cd d, E.context.get_context_data pid = some cd →
      encrypt_zero_internal E ext true pid asym sd dest = (Option.none, d) →
      d.data.length = 2 ∧ d.parms_id = pid ∧
        (d.is_ntt_form = true ↔
          (cd.parms.scheme = SchemeType.ckks ∨
            cd.parms.scheme = SchemeType.bgv))) := by
  refine ⟨?_, ?_, ?_⟩
  · intro h
    unfold encrypt_zero_internal
    rw [h]
  · intro cd hcd hs
    unfold encrypt_zero_internal
    rw [hcd]
    simp only []
    rw [hs]
    rfl
  · intro cd d hcd hsucc
    obtain ⟨cd2, hcd2, h2, h3, hfl⟩ :=
      zero_success_spec E ext true pid asym sd dest d hext hsucc
    rw [hcd] at hcd2
    injection hcd2 with hcdeq
    subst hcdeq
    refine ⟨h2, h3, ?_⟩
    cases hs : cd.parms.scheme with
    | none => rw [hs] at hfl; simp [scheme_ntt_flag] at hfl
    | bfv =>
      rw [hs] at hfl
      simp only [scheme_ntt_flag, Option.some.injEq] at hfl
      rw [← hfl]
      simp
    | ckks =>
      rw [hs] at hfl
      simp only [scheme_ntt_flag, Option.some.injEq] at hfl
      rw [← hfl]
      simp
    | bgv =>
      rw [hs] at hfl
      simp only [scheme_ntt_flag, Option.some.injEq] at hfl
      rw [← hfl]
      simp

theorem encrypt_zero_contract_witness :
    (zeroCtW 2 true).data.length = 2 ∧ (zeroCtW 2 true).parms_id = 2 ∧
      ((zeroCtW 2 true).is_ntt_form = true ↔
        (cdFirstW.parms.scheme = SchemeType.ckks ∨
          cdFirstW.parms.scheme = SchemeType.bgv)) :=
  (encrypt_zero_contract EW extW 2 false false dest0 extW_wb).2.2 cdFirstW
    (zeroCtW 2 true) rfl rfl

/-- C6: in asymmetric mode, when the target level has a coarser predecessor,
`encrypt_zero_internal` builds the zero-encryption at the predecessor level
and applies exactly one scheme-dispatched rescale step per component, after
which the destination carries the target level tag, the scheme's
evaluation-form flag, and the rescaled result's scale and correction factor;
with no predecessor, the zero-encryption is generated directly at the target
level from the public key. -/
theorem encrypt_zero_asym_descent (E : Encryptor) (ext : Externals) (pid : Nat)
    (sd : Bool) (dest : Ciphertext) (cd : ContextData) (flag : Bool)
    (hext : ext.WellBehaved)
    (hcd : E.context.get_context_data pid = some cd)
    (hfl : scheme_ntt_flag cd.parms.scheme = some flag) :
    (∀ prev_id, cd.prev_parms_id = some prev_id →
      encrypt_zero_internal E ext true pid true sd dest =
        (Option.none,
          { data := (ext.encrypt_zero_asymmetric prev_id flag).data.map
              (fun c => set_poly_model cd.parms.coeff_modulus.length
                cd.parms.poly_modulus_degree
                (rescale_step ext cd.parms.scheme prev_id c)),
            parms_id := pid, is_ntt_form := flag,
            scale := (ext.encrypt_zero_asymmetric prev_id flag).scale,
            correction_factor :=
              (ext.encrypt_zero_asymmetric prev_id flag).correction_factor })) ∧
    (cd.prev_parms_id = Option.none →
      encrypt_zero_internal E ext true pid true sd dest =
        (Option.none, ext.encrypt_zero_asymmetric pid flag)) := by
  constructor
  · intro prev_id hprev
    unfold encrypt_zero_internal
    rw [hcd]
    simp only []
    rw [hfl]
    simp only []
    rw [hprev]
    simp only [Prod.mk.injEq, true_and]
    have hlen := (hext.1 prev_id flag).1
    rw [hlen]
    simp [Ciphertext.resize]
  · intro hprev
    unfold encrypt_zero_internal
    rw [hcd]
    simp only []
    rw [hfl]
    simp only []
    rw [hprev]

theorem encrypt_zero_asym_descent_witness :
    encrypt_zero_internal EW extW true 2 true false dest0 =
      (Option.none,
        { data := (extW.encrypt_zero_asymmetric 1 true).data.map
            (fun c => set_poly_model cdFirstW.parms.coeff_modulus.length
              cdFirstW.parms.poly_modulus_degree
              (rescale_step extW cdFirstW.parms.scheme 1 c)),
          parms_id := 2, is_ntt_form := true,
          scale := (extW.encrypt_zero_asymmetric 1 true).scale,
          correction_factor :=
            (extW.encrypt_zero_asymmetric 1 true).correction_factor }) :=
  (encrypt_zero_asym_descent EW extW 2 false dest0 cdFirstW true extW_wb rfl
    rfl).1 1 rfl

/-- C7: in symmetric mode, `encrypt_zero_internal` generates the
zero-encryption directly at the target level from the secret key and the
prepared random state, with no multi-level descent: the result is exactly the
direct symmetric generation and does not depend on the asymmetric generator
or on any of the rescale helpers. -/
theorem encrypt_zero_symmetric_direct (E : Encryptor) (ext : Externals)
    (pid : Nat) (sd : Bool) (dest : Ciphertext) (cd : ContextData)
    (flag : Bool) (ct : Ciphertext)
    (hcd : E.context.get_context_data pid = some cd)
    (hfl : scheme_ntt_flag cd.parms.scheme = some flag)
    (hsym : ext.encrypt_zero_symmetric pid flag sd = some ct) :
    encrypt_zero_internal E ext true pid false sd dest = (Option.none, ct) ∧
    (∀ f g1 g2 g3,
      encrypt_zero_internal E
        { ext with encrypt_zero_asymmetric := f,
                   divide_and_round_q_last_ntt := g1,
                   divide_and_round_q_last := g2,
                   mod_t_and_divide_q_last := g3 } true pid false sd dest =
        (Option.none, ct)) := by
  constructor
  · unfold encrypt_zero_internal
    rw [hcd]
    simp only []
    rw [hfl]
    simp only []
    rw [hsym]
  · intro f g1 g2 g3
    unfold encrypt_zero_internal
    rw [hcd]
    simp only []
    rw [hfl]
    simp only []
    have hsym2 : ({ ext with
        encrypt_zero_asymmetric := f,
        divide_and_round_q_last_ntt := g1,
        divide_and_round_q_last := g2,
        mod_t_and_divide_q_last := g3 } : Externals).encrypt_zero_symmetric
          pid flag sd = some ct := hsym
    rw [hsym2]

theorem encrypt_zero_symmetric_direct_witness :
    encrypt_zero_internal EW
      { extW with
          encrypt_zero_asymmetric := fun _ _ => dest0,
          divide_and_round_q_last_ntt := fun _ _ => [],
          divide_and_round_q_last := fun _ _ => [],
          mod_t_and_divide_q_last := fun _ _ => [] }
      true 2 false false dest0 =
      (Option.none, zeroCtW 2 true) :=
  (encrypt_zero_symmetric_direct EW extW 2 false dest0 cdFirstW true
    (zeroCtW 2 true) rfl rfl rfl).2 (fun _ _ => dest0) (fun _ _ => [])
    (fun _ _ => []) (fun _ _ => [])

theorem encrypt_internal_reduces (E : Encryptor) (ext : Externals)
    (pool_ok : Bool) (plain : Plaintext) (asym sd : Bool) (dest : Ciphertext)
    (hkey : (if asym then E.pk_valid else E.sk_valid) = true)
    (hvalid : ext.is_valid_for_plain plain = true) :
    encrypt_internal E ext pool_ok plain asym sd dest =
      (match E.context.key_scheme with
        | SchemeType.bfv =>
          encrypt_bfv_branch E ext pool_ok plain asym sd dest
        | SchemeType.ckks =>
          encrypt_ckks_branch E ext pool_ok plain asym sd dest
        | SchemeType.bgv =>
          encrypt_bgv_branch E ext pool_ok plain asym sd dest
        | SchemeType.none => (some EncErr.unsupportedScheme, dest)) := by
  unfold encrypt_internal
  simp only []
  cases asym with
  | true =>
    simp only [if_true] at hkey
    rw [hkey]
    simp only []
    rw [hvalid]
  | false =>
    simp only [Bool.false_eq_true, if_false] at hkey
    rw [hkey]
    simp only []
    rw [hvalid]

/-- C2 (amended): for every call to `encrypt_zero_internal` or
`encrypt_internal` that raises an error other than the symmetric-mode
random-state failure, the destination ciphertext is left completely
unmodified; the random-state failure alone occurs after the destination has
already been resized. -/
theorem error_no_mutation (E : Encryptor) (ext : Externals) (pool_ok : Bool) :
    (∀ pid asym sd dest e d,
      encrypt_zero_internal E ext pool_ok pid asym sd dest = (some e, d) →
      e ≠ EncErr.randomStateUnprepared → d = dest) ∧
    (∀ plain asym sd dest e d,
      encrypt_internal E ext pool_ok plain asym sd dest = (some e, d) →
      e ≠ EncErr.randomStateUnprepared → d = dest) :=
  ⟨fun pid asym sd dest e d h hne =>
      zero_error_id E ext pool_ok pid asym sd dest d e h hne,
    fun plain asym sd dest e d h hne =>
      internal_error_id E ext pool_ok plain asym sd dest d e h hne⟩

theorem error_no_mutation_witness :
    (encrypt_zero_internal EW extW true 9 false false dest0).2 = dest0 :=
  (error_no_mutation EW extW true).1 9 false false dest0 EncErr.invalidParmsId
    (encrypt_zero_internal EW extW true 9 false false dest0).2 rfl (by decide)

/-- C2 counterexample: a symmetric-mode random-state failure is raised only
after the destination has been resized, so a failed `encrypt_zero_internal`
call can leave the destination modified, contradicting the claim that every
listed error leaves it completely unmodified. -/
theorem error_mutation_counterexample :
    (encrypt_zero_internal EW extBadW true 2 false false dest0).1 =
        some EncErr.randomStateUnprepared ∧
      (encrypt_zero_internal EW extBadW true 2 false false dest0).2 ≠ dest0 := by
  constructor
  · rfl
  · decide

/-- C4: `encrypt_internal` rejects with a form-mismatch error, leaving the
destination unmodified, any plaintext whose evaluation-form flag mismatches
the scheme's requirement: BFV and BGV reject evaluation-form plaintexts, and
CKKS rejects plaintexts not in evaluation form. -/
theorem plain_form_mismatch_rejected (E : Encryptor) (ext : Externals)
    (pool_ok : Bool) (plain : Plaintext) (asym sd : Bool) (dest : Ciphertext)
    (hkey : (if asym then E.pk_valid else E.sk_valid) = true)
    (hvalid : ext.is_valid_for_plain plain = true) :
    ((E.context.key_scheme = SchemeType.bfv ∨
        E.context.key_scheme = SchemeType.bgv) →
      plain.is_ntt_form = true →
      encrypt_internal E ext pool_ok plain asym sd dest =
        (some EncErr.plainFormMismatch, dest)) ∧
    (E.context.key_scheme = SchemeType.ckks →
      plain.is_ntt_form = false →
      encrypt_internal E ext pool_ok plain asym sd dest =
        (some EncErr.plainFormMismatch, dest)) := by
  rw [encrypt_internal_reduces E ext pool_ok plain asym sd dest hkey hvalid]
  constructor
  · intro hsch hpn
    rcases hsch with hs | hs
    · rw [hs]
      simp only []
      unfold encrypt_bfv_branch
      rw [hpn]
    · rw [hs]
      simp only []
      unfold encrypt_bgv_branch
      rw [hpn]
  · intro hs hpn
    rw [hs]
    simp only []
    unfold encrypt_ckks_branch
    rw [hpn]

theorem plain_form_mismatch_rejected_witness :
    encrypt_internal EW extW true plainCoeffW false false dest0 =
      (some EncErr.plainFormMismatch, dest0) :=
  (plain_form_mismatch_rejected EW extW true plainCoeffW false false dest0
    rfl rfl).2 rfl rfl

/-- C8: for every successfully encrypted plaintext, the ciphertext's level is
the finest (first) level of the chain when the scheme is BFV or BGV,
regardless of the plaintext's own level tag, and is exactly the plaintext's
resolved level when the scheme is CKKS. -/
theorem encrypt_level_choice (E : Encryptor) (ext : Externals)
    (pool_ok : Bool) (plain : Plaintext) (asym sd : Bool) (dest d : Ciphertext)
    (hext : ext.WellBehaved)
    (h : encrypt_internal E ext pool_ok plain asym sd dest = (Option.none, d)) :
    ((E.context.key_scheme = SchemeType.bfv ∨
        E.context.key_scheme = SchemeType.bgv) →
      d.parms_id = E.context.first_parms_id) ∧
    (E.context.key_scheme = SchemeType.ckks →
      d.parms_id = plain.parms_id) := by
  rcases encrypt_internal_success E ext pool_ok plain asym sd dest d h with
    ⟨hks, hb⟩ | ⟨hks, hb⟩ | ⟨hks, hb⟩
  · obtain ⟨d0, hz, hp, _, _⟩ :=
      bfv_branch_success E ext pool_ok plain asym sd dest d hb
    obtain ⟨cd2, _, _, hpid, _⟩ :=
      zero_success_spec E ext pool_ok E.context.first_parms_id asym sd dest d0
        hext hz
    constructor
    · intro _
      rw [hp, hpid]
    · intro hc
      rw [hks] at hc
      exact absurd hc (by decide)
  · obtain ⟨d0, hz, hp, _, _⟩ :=
      ckks_branch_success E ext pool_ok plain asym sd dest d hb
    obtain ⟨cd2, _, _, hpid, _⟩ :=
      zero_success_spec E ext pool_ok plain.parms_id asym sd dest d0 hext hz
    constructor
    · intro hc
      rcases hc with hc | hc <;> rw [hks] at hc <;> exact absurd hc (by decide)
    · intro _
      rw [hp, hpid]
  · obtain ⟨d0, hz, hp, _, _⟩ :=
      bgv_branch_success E ext pool_ok plain asym sd dest d hb
    obtain ⟨cd2, _, _, hpid, _⟩ :=
      zero_success_spec E ext pool_ok E.context.first_parms_id asym sd dest d0
        hext hz
    constructor
    · intro _
      rw [hp, hpid]
    · intro hc
      rw [hks] at hc
      exact absurd hc (by decide)

theorem encrypt_level_choice_witness :
    (encrypt_internal EW extW true plainW false false dest0).2.parms_id = 2 :=
  (encrypt_level_choice EW extW true plainW false false dest0
    (encrypt_internal EW extW true plainW false false dest0).2 extW_wb rfl).2
    rfl

/-- C9: for every CKKS plaintext with scale S, both the generic encrypt path
and the fast-path fused encrypt produce a ciphertext whose scale is
exactly S. -/
theorem ckks_scale_propagation (E : Encryptor) (ext : Externals)
    (pool_ok : Bool) (plain : Plaintext) (asym sd : Bool)
    (dest dest2 c1 : Ciphertext) (noise : List Nat)
    (ntt : Nat → List Nat → List Nat) (d d2 : Ciphertext) :
    (E.context.key_scheme = SchemeType.ckks →
      encrypt_internal E ext pool_ok plain asym sd dest = (Option.none, d) →
      d.scale = plain.scale) ∧
    (encrypt_symmetric_ckks_internal E noise ntt plain dest2 c1 =
        (Option.none, d2) →
      d2.scale = plain.scale) := by
  constructor
  · intro hks h
    rcases encrypt_internal_success E ext pool_ok plain asym sd dest d h with
      ⟨hks2, hb⟩ | ⟨hks2, hb⟩ | ⟨hks2, hb⟩
    · rw [hks] at hks2
      exact absurd hks2 (by decide)
    · obtain ⟨d0, _, _, _, hsc⟩ :=
        ckks_branch_success E ext pool_ok plain asym sd dest d hb
      exact hsc
    · rw [hks] at hks2
      exact absurd hks2 (by decide)
  · intro h
    exact (fast_path_success E noise ntt plain dest2 c1 d2 h).2.2.2.1

theorem ckks_scale_propagation_witness :
    (encrypt_symmetric_ckks_internal EW [1, 1, 1, 1, 1, 1, 1, 1]
      (fun _ l => l) plainW dest0 c1W).2.scale = 5 :=
  (ckks_scale_propagation EW extW true plainW false false dest0 dest0 c1W
    [1, 1, 1, 1, 1, 1, 1, 1] (fun _ l => l)
    (encrypt_internal EW extW true plainW false false dest0).2
    (encrypt_symmetric_ckks_internal EW [1, 1, 1, 1, 1, 1, 1, 1]
      (fun _ l => l) plainW dest0 c1W).2).2 rfl

/-- C10: every successful fast-path fused encrypt produces a 1-component
evaluation-form ciphertext with correction factor 1 at the plaintext's level,
and the mask sampler produces a 1-component evaluation-form shell with scale
1 and correction factor 1 at the finest level. -/
theorem fast_path_shape (E : Encryptor) (noise : List Nat)
    (ntt : Nat → List Nat → List Nat) (plain : Plaintext)
    (dest c1 d : Ciphertext) (u : List Nat) :
    (encrypt_symmetric_ckks_internal E noise ntt plain dest c1 =
        (Option.none, d) →
      d.data.length = 1 ∧ d.is_ntt_form = true ∧ d.correction_factor = 1 ∧
        d.parms_id = plain.parms_id) ∧
    ((sample_symmetric_ckks_c1_internal E u).data.length = 1 ∧
      (sample_symmetric_ckks_c1_internal E u).is_ntt_form = true ∧
      (sample_symmetric_ckks_c1_internal E u).scale = 1 ∧
      (sample_symmetric_ckks_c1_internal E u).correction_factor = 1 ∧
      (sample_symmetric_ckks_c1_internal E u).parms_id =
        E.context.first_parms_id) := by
  constructor
  · intro h
    obtain ⟨h1, h2, h3, _, h5⟩ := fast_path_success E noise ntt plain dest c1 d h
    exact ⟨h1, h3, h5, h2⟩
  · exact ⟨rfl, rfl, rfl, rfl, rfl⟩

theorem fast_path_shape_witness :
    (encrypt_symmetric_ckks_internal EW [1, 1, 1, 1, 1, 1, 1, 1]
        (fun _ l => l) plainW dest0 c1W).2.data.length = 1 ∧
      (encrypt_symmetric_ckks_internal EW [1, 1, 1, 1, 1, 1, 1, 1]
        (fun _ l => l) plainW dest0 c1W).2.is_ntt_form = true ∧
      (encrypt_symmetric_ckks_internal EW [1, 1, 1, 1, 1, 1, 1, 1]
        (fun _ l => l) plainW dest0 c1W).2.correction_factor = 1 ∧
      (encrypt_symmetric_ckks_internal EW [1, 1, 1, 1, 1, 1, 1, 1]
        (fun _ l => l) plainW dest0 c1W).2.parms_id = 2 :=
  (fast_path_shape EW [1, 1, 1, 1, 1, 1, 1, 1] (fun _ l => l) plainW dest0 c1W
    (encrypt_symmetric_ckks_internal EW [1, 1, 1, 1, 1, 1, 1, 1]
      (fun _ l => l) plainW dest0 c1W).2 [0]).1 rfl

theorem getD_mem {α : Type} (l : List α) (i : Nat) (d : α) (h : i < l.length) :
    l.getD i d ∈ l := by
  rw [List.getD_eq_getElem _ _ h]
  exact List.getElem_mem h

/-- C3: for every BGV plaintext coefficient below the message modulus
(covering in particular the boundary values 0, threshold-1, threshold and
modulus-1), the generic lift strategy (full-precision addition of the
upper-half increment followed by RNS decomposition) and the fast lift
strategy (per-residue precomputed increment) produce identical residue
arrays for every modulus of the level, given the documented increment
values: the full-precision increment is the modulus product minus the
message modulus, and each per-residue increment is that residue's modulus
minus the message modulus. -/
theorem bgv_lift_strategies_agree (t T Inc n : Nat)
    (qs incs coeffs : List Nat)
    (hq : ∀ q ∈ qs, t < q)
    (hInc : Inc = qs.prod - t)
    (hincs : incs = qs.map (fun q => q - t))
    (hco : ∀ v ∈ coeffs, v < t) :
    bgv_lift_generic T Inc qs n coeffs = bgv_lift_fast T incs n coeffs := by
  subst hInc
  subst hincs
  unfold bgv_lift_generic bgv_lift_fast
  rw [List.map_map]
  apply List.map_congr_left
  intro q hqmem
  simp only [Function.comp]
  unfold liftedBig
  rw [List.map_map]
  apply List.map_congr_left
  intro j _
  simp only [Function.comp]
  have htq : t < q := hq q hqmem
  by_cases hlen : j < coeffs.length
  · rw [if_pos hlen, if_pos hlen]
    have hv : coeffs.getD j 0 < t := hco _ (getD_mem coeffs j 0 hlen)
    obtain ⟨c, hc⟩ : q ∣ qs.prod := List.dvd_prod hqmem
    have hQ0 : 0 < qs.prod := by
      apply List.prod_pos
      intro x hx
      have := hq x hx
      omega
    have hqQ : q ≤ qs.prod := Nat.le_of_dvd hQ0 ⟨c, hc⟩
    by_cases hT : T ≤ coeffs.getD j 0
    · rw [if_pos hT, if_pos hT]
      have hsplit : coeffs.getD j 0 + (qs.prod - t) =
          (coeffs.getD j 0 + (q - t)) + (qs.prod - q) := by omega
      rw [hsplit]
      have hstep : qs.prod - q = q * (c - 1) := by
        cases c with
        | zero =>
          exfalso
          omega
        | succ c0 =>
          rw [hc, Nat.mul_succ]
          simp only [Nat.succ_sub_one]
          omega
      rw [hstep, Nat.add_mul_mod_self_left]
      exact Nat.mod_eq_of_lt (by omega)
    · rw [if_neg hT, if_neg hT]
      exact Nat.mod_eq_of_lt (by omega)
  · rw [if_neg hlen, if_neg hlen]
    exact Nat.zero_mod q

theorem bgv_lift_strategies_agree_witness :
    bgv_lift_generic 9 18704 [97, 193] 4 [0, 8, 9, 16] =
      bgv_lift_fast 9 [80, 176] 4 [0, 8, 9, 16] :=
  bgv_lift_strategies_agree 17 9 18704 4 [97, 193] [80, 176] [0, 8, 9, 16]
    (by decide) (by decide) (by decide) (by decide)

/-- C1: for every evaluation-form plaintext at a resolved level and every
previously sampled mask component, the fast-path fused encrypt computes,
for each modulus residue i of the plaintext's level and each coefficient j,
the leading component as
leading = -(secret * mask) + NTT(noise) + plain
in the residue's modular ring, with the noise freshly sampled (entering as
the `noise` buffer). -/
theorem fast_path_leading_formula (E : Encryptor) (noise : List Nat)
    (ntt : Nat → List Nat → List Nat) (plain : Plaintext)
    (dest c1 : Ciphertext) (cd : ContextData) (i j : Nat)
    (hsk : E.sk_valid = true) (hpn : plain.is_ntt_form = true)
    (hcd : E.context.get_context_data plain.parms_id = some cd)
    (hi : i < cd.parms.coeff_modulus.length)
    (hj : j < cd.parms.poly_modulus_degree)
    (hsklen : E.sk_data.length =
      cd.parms.coeff_modulus.length * cd.parms.poly_modulus_degree)
    (hplen : plain.data.length =
      cd.parms.coeff_modulus.length * cd.parms.poly_modulus_degree)
    (hnlen : noise.length =
      cd.parms.coeff_modulus.length * cd.parms.poly_modulus_degree)
    (hc1len : ((c1.data.getD 0 []).getD i []).length =
      cd.parms.poly_modulus_degree)
    (hnttlen : ∀ l, (ntt i l).length = l.length)
    (hq : 0 < cd.parms.coeff_modulus.getD i 0) :
    (encrypt_symmetric_ckks_internal E noise ntt plain dest c1).1 =
        Option.none ∧
      (((((encrypt_symmetric_ckks_internal E noise ntt plain dest
            c1).2.data.getD 0 []).getD i []).getD j 0 :
          ZMod (cd.parms.coeff_modulus.getD i 0)) =
        -((E.sk_data.getD (i * cd.parms.poly_modulus_degree + j) 0 :
              ZMod (cd.parms.coeff_modulus.getD i 0)) *
            (((c1.data.getD 0 []).getD i []).getD j 0 :
              ZMod (cd.parms.coeff_modulus.getD i 0))) +
          ((ntt i (seg noise cd.parms.poly_modulus_degree i)).getD j 0 :
            ZMod (cd.parms.coeff_modulus.getD i 0)) +
          (plain.data.getD (i * cd.parms.poly_modulus_degree + j) 0 :
            ZMod (cd.parms.coeff_modulus.getD i 0))) := by
  rw [fast_path_eq E noise ntt plain dest c1 cd hsk hpn hcd]
  refine ⟨rfl, ?_⟩
  simp only [List.getD_cons_zero]
  rw [getD_range_map _ _ i [] hi]
  have hseg_sk : (seg E.sk_data cd.parms.poly_modulus_degree i).length =
      cd.parms.poly_modulus_degree :=
    seg_length _ _ _ _ hsklen hi
  have hseg_p : (seg plain.data cd.parms.poly_modulus_degree i).length =
      cd.parms.poly_modulus_degree :=
    seg_length _ _ _ _ hplen hi
  have hseg_noise : (seg noise cd.parms.poly_modulus_degree i).length =
      cd.parms.poly_modulus_degree :=
    seg_length _ _ _ _ hnlen hi
  have he : (ntt i (seg noise cd.parms.poly_modulus_degree i)).length =
      cd.parms.poly_modulus_degree := by
    rw [hnttlen, hseg_noise]
  have hprodlen : (dyadic_product_coeffmod
      (seg E.sk_data cd.parms.poly_modulus_degree i)
      ((c1.data.getD 0 []).getD i [])
      (cd.parms.coeff_modulus.getD i 0)).length =
      cd.parms.poly_modulus_degree := by
    unfold dyadic_product_coeffmod
    rw [List.length_zipWith, hseg_sk, hc1len]
    simp
  unfold add_negate_add_poly_coeffmod
  rw [getD_zipWith3 _ _ _ _ j 0 0 0 0 (by rw [he]; exact hj)
    (by rw [hprodlen]; exact hj) (by rw [hseg_p]; exact hj)]
  unfold dyadic_product_coeffmod
  rw [getD_zipWith _ _ _ j 0 0 0 (by rw [hseg_sk]; exact hj)
    (by rw [hc1len]; exact hj)]
  rw [seg_getD E.sk_data _ _ _ _ hj, seg_getD plain.data _ _ _ _ hj]
  have h1 : E.sk_data.getD (i * cd.parms.poly_modulus_degree + j) 0 *
        ((c1.data.getD 0 []).getD i []).getD j 0 %
        cd.parms.coeff_modulus.getD i 0 %
        cd.parms.coeff_modulus.getD i 0 =
      E.sk_data.getD (i * cd.parms.poly_modulus_degree + j) 0 *
        ((c1.data.getD 0 []).getD i []).getD j 0 %
        cd.parms.coeff_modulus.getD i 0 :=
    Nat.mod_mod_of_dvd _ dvd_rfl
  rw [h1]
  have h2 : E.sk_data.getD (i * cd.parms.poly_modulus_degree + j) 0 *
        ((c1.data.getD 0 []).getD i []).getD j 0 %
        cd.parms.coeff_modulus.getD i 0 ≤
      cd.parms.coeff_modulus.getD i 0 :=
    Nat.le_of_lt (Nat.mod_lt _ hq)
  rw [ZMod.natCast_mod, Nat.cast_add, Nat.cast_add, Nat.cast_sub h2,
    ZMod.natCast_mod, ZMod.natCast_self, Nat.cast_mul]
  ring

theorem fast_path_leading_formula_witness :
    (encrypt_symmetric_ckks_internal EW [1, 1, 1, 1, 1, 1, 1, 1]
        (fun _ l => l) plainW dest0 c1W).1 = Option.none ∧
      (((((encrypt_symmetric_ckks_internal EW [1, 1, 1, 1, 1, 1, 1, 1]
            (fun _ l => l) plainW dest0 c1W).2.data.getD 0 []).getD 0
            []).getD 0 0 :
          ZMod (cdFirstW.parms.coeff_modulus.getD 0 0)) =
        -((EW.sk_data.getD (0 * cdFirstW.parms.poly_modulus_degree + 0) 0 :
              ZMod (cdFirstW.parms.coeff_modulus.getD 0 0)) *
            (((c1W.data.getD 0 []).getD 0 []).getD 0 0 :
              ZMod (cdFirstW.parms.coeff_modulus.getD 0 0))) +
          (((fun (_ : Nat) (l : List Nat) => l) 0
              (seg [1, 1, 1, 1, 1, 1, 1, 1]
                cdFirstW.parms.poly_modulus_degree 0)).getD 0 0 :
            ZMod (cdFirstW.parms.coeff_modulus.getD 0 0)) +
          ((plainW.data.getD (0 * cdFirstW.parms.poly_modulus_degree + 0) 0 :
            ZMod (cdFirstW.parms.coeff_modulus.getD 0 0)))) :=
  fast_path_leading_formula EW [1, 1, 1, 1, 1, 1, 1, 1] (fun _ l => l) plainW
    dest0 c1W cdFirstW 0 0 rfl rfl rfl (by decide) (by decide) (by decide)
    (by decide) (by decide) (by decide) (fun l => rfl) (by decide)

end SigmaHE
